import Mathlib

/-!
Shallow embedding of `src/vdppdf.py` (Double-Sided PDF Merger).

The script reads a master PDF (page 0 = front template, page 1 = back
template) and a multi-page content PDF, and for each content page appends
to the output a composed front (content page merged onto the front
template at an explicit or auto-centered offset, lines 66-92) and a
composed back (a number stamp rendered with reportlab and merged onto
the back template, lines 94-126).

A page is modelled as its mediabox dimensions plus a list of drawing
operations; PyPDF2 merges are modelled as fallible (a `MergeOracle`
decides which merge calls raise, mirroring the `try/except` ladders at
lines 84-90 and 118-124); a successful merge appends the overlay's
operations, translated by the given offset, to the base page's
operations and keeps the base page's mediabox.
-/

namespace VdpPdf

/-- One drawing operation on a page: a text draw (as produced by
`canvas.drawString` at line 102, with the font/size set at line 101),
or an opaque piece of pre-existing page content at some offset. -/
inductive PageOp where
  | text (font : String) (size : ℚ) (x y : ℚ) (s : String)
  | raw (id : Nat) (x y : ℚ)
  deriving DecidableEq, Repr

/-- Translate one drawing operation by `(dx, dy)`, as
`merge_translated_page(overlay, dx, dy)` does to the overlay content. -/
def translateOp (dx dy : ℚ) : PageOp → PageOp
  | .text f sz x y s => .text f sz (x + dx) (y + dy) s
  | .raw i x y => .raw i (x + dx) (y + dy)

/-- A PDF page: mediabox width/height plus drawing content. -/
structure Page where
  width : ℚ
  height : ℚ
  content : List PageOp
  deriving DecidableEq, Repr

instance : Inhabited Page := ⟨⟨0, 0, []⟩⟩

/-- Decides which PyPDF2 merge calls raise an exception: the script
wraps `merge_translated_page` and `merge_page` in `try/except`
(lines 84-90, 118-124), so the embedding leaves the failure condition
abstract. -/
structure MergeOracle where
  translatedFails : Page → Page → ℚ → ℚ → Bool
  plainFails : Page → Page → Bool

/-- `base.merge_translated_page(overlay, dx, dy)`: `none` when the call
raises; otherwise the merged page keeps `base`'s mediabox and appends
the overlay's content translated by `(dx, dy)`. -/
def mergeTranslatedPage (o : MergeOracle) (base overlay : Page) (dx dy : ℚ) : Option Page :=
  if o.translatedFails base overlay dx dy then none
  else some { width := base.width, height := base.height,
              content := base.content ++ overlay.content.map (translateOp dx dy) }

/-- `base.merge_page(overlay)`: untranslated merge; `none` when the
call raises. -/
def mergePage (o : MergeOracle) (base overlay : Page) : Option Page :=
  if o.plainFails base overlay then none
  else some { width := base.width, height := base.height,
              content := base.content ++ overlay.content }

/-- The decimal digit characters used by Python's `str` on a
nonnegative integer. -/
def digitChar10 (d : Nat) : Char :=
  if d = 0 then '0' else if d = 1 then '1' else if d = 2 then '2'
  else if d = 3 then '3' else if d = 4 then '4' else if d = 5 then '5'
  else if d = 6 then '6' else if d = 7 then '7' else if d = 8 then '8'
  else '9'

/-- Fuel-driven digit accumulator: peels off base-10 digits of `n`
(least significant first, so the list ends up most significant first)
while fuel lasts. -/
def decDigitsGo : Nat → Nat → List Char → List Char
  | _, 0, acc => acc
  | 0, _ + 1, acc => acc
  | f + 1, n + 1, acc => decDigitsGo f ((n + 1) / 10) (digitChar10 ((n + 1) % 10) :: acc)

/-- Accumulate the base-10 digits of `n` (most significant first) in
front of `acc`; `n` itself is always enough fuel. -/
def decDigitsAux (n : Nat) (acc : List Char) : List Char := decDigitsGo n n acc

theorem decDigitsGo_zero (f : Nat) (acc : List Char) : decDigitsGo f 0 acc = acc := by
  cases f <;> rfl

theorem decDigitsGo_fuel : ∀ (f g n : Nat) (acc : List Char), n ≤ f → n ≤ g →
    decDigitsGo f n acc = decDigitsGo g n acc
  | f, g, 0, acc, _, _ => by rw [decDigitsGo_zero, decDigitsGo_zero]
  | 0, _, m + 1, _, hf, _ => absurd hf (by omega)
  | _ + 1, 0, m + 1, _, _, hg => absurd hg (by omega)
  | f + 1, g + 1, m + 1, acc, hf, hg => by
      show decDigitsGo f ((m + 1) / 10) (digitChar10 ((m + 1) % 10) :: acc) =
        decDigitsGo g ((m + 1) / 10) (digitChar10 ((m + 1) % 10) :: acc)
      have hd : (m + 1) / 10 ≤ m := by
        have := Nat.div_lt_self (Nat.succ_pos m) (show 1 < 10 by omega)
        omega
      exact decDigitsGo_fuel f g ((m + 1) / 10) _ (by omega) (by omega)

theorem decDigitsAux_zero (acc : List Char) : decDigitsAux 0 acc = acc := rfl

theorem decDigitsAux_succ (m : Nat) (acc : List Char) :
    decDigitsAux (m + 1) acc =
      decDigitsAux ((m + 1) / 10) (digitChar10 ((m + 1) % 10) :: acc) := by
  show decDigitsGo m ((m + 1) / 10) (digitChar10 ((m + 1) % 10) :: acc) =
    decDigitsGo ((m + 1) / 10) ((m + 1) / 10) (digitChar10 ((m + 1) % 10) :: acc)
  have hd : (m + 1) / 10 ≤ m := by
    have := Nat.div_lt_self (Nat.succ_pos m) (show 1 < 10 by omega)
    omega
  exact decDigitsGo_fuel m ((m + 1) / 10) ((m + 1) / 10) _ hd (le_refl _)

/-- Python's `str(number)` for a nonnegative integer (line 102): plain
base-10 decimal digits. -/
def decimalStr (n : Nat) : String :=
  if n = 0 then "0" else String.mk (decDigitsAux n [])

/-- The Canvas Renderer (lines 96-105): a fresh page of the given
`pagesize` holding the single `drawString` of `str(number)` at `(x, y)`
in the given font and size. -/
def render (number : Nat) (width height : ℚ) (font : String) (fontSize : ℚ)
    (x y : ℚ) : Page :=
  { width := width, height := height,
    content := [PageOp.text font fontSize x y (decimalStr number)] }

/-- The front placement (lines 81-82):
`fx = front_x if front_x >= 0 else (mw - pw) / 2`, and symmetrically
for `fy`. -/
def resolvePlacement (front_x front_y mw mh pw ph : ℚ) : ℚ × ℚ :=
  (if front_x ≥ 0 then front_x else (mw - pw) / 2,
   if front_y ≥ 0 then front_y else (mh - ph) / 2)

/-- The front merge ladder (lines 84-92) at an already-resolved offset:
try `merge_translated_page(page, fx, fy)`; on exception try
`merge_page(page)`; on a second exception the bare template copy is
what gets appended. -/
def composeFrontAt (o : MergeOracle) (masterFront page : Page) (fx fy : ℚ) : Page :=
  match mergeTranslatedPage o masterFront page fx fy with
  | some merged => merged
  | none =>
    match mergePage o masterFront page with
    | some merged => merged
    | none => masterFront

/-- One front page of the output (lines 66-92): resolve the placement
from the template's and this content page's own mediabox dimensions,
then run the merge ladder. -/
def composeFront (o : MergeOracle) (front_x front_y : ℚ) (masterFront page : Page) : Page :=
  let fxy := resolvePlacement front_x front_y masterFront.width masterFront.height
      page.width page.height
  composeFrontAt o masterFront page fxy.1 fxy.2

/-- One back page of the output (lines 94-126): render the number stamp
sized to the back template's mediabox, then try `merge_page(num_page)`;
on exception try `merge_translated_page(num_page, 0, 0)`; on a second
exception the bare template copy is what gets appended. -/
def composeBack (o : MergeOracle) (masterBack : Page) (x_pos y_pos : ℚ) (number : Nat) : Page :=
  let numPage := render number masterBack.width masterBack.height "Helvetica" 20 x_pos y_pos
  match mergePage o masterBack numPage with
  | some merged => merged
  | none =>
    match mergeTranslatedPage o masterBack numPage 0 0 with
    | some merged => merged
    | none => masterBack

/-- The `for page in multi_reader.pages` loop (lines 65-128): each
iteration appends a composed front then a composed back, and increments
the running number. -/
def assembleLoop (o : MergeOracle) (masterFront masterBack : Page)
    (front_x front_y x_pos y_pos : ℚ) : Nat → List Page → List Page
  | _, [] => []
  | number, page :: rest =>
      composeFront o front_x front_y masterFront page ::
      composeBack o masterBack x_pos y_pos number ::
      assembleLoop o masterFront masterBack front_x front_y x_pos y_pos (number + 1) rest

/-- The fatal error at lines 55-56: master PDF with fewer than 2 pages. -/
inductive VdpError where
  | invalidMaster
  deriving DecidableEq, Repr

/-- The whole run (lines 47-133): reject a master with fewer than 2
pages before building any page; otherwise take the front and back
templates from the master's first two pages and run the loop starting
at `start_num`. -/
def assemble (o : MergeOracle) (master multi : List Page)
    (front_x front_y : ℚ) (start_num : Nat) (x_pos y_pos : ℚ) :
    Except VdpError (List Page) :=
  if master.length < 2 then .error .invalidMaster
  else
    match master with
    | masterFront :: masterBack :: _ =>
        .ok (assembleLoop o masterFront masterBack front_x front_y x_pos y_pos start_num multi)
    | _ => .error .invalidMaster

/-- A merge backend on which no merge call raises. -/
def oracleOk : MergeOracle :=
  { translatedFails := fun _ _ _ _ => false, plainFails := fun _ _ => false }

/-- A merge backend on which every merge call raises. -/
def oracleFail : MergeOracle :=
  { translatedFails := fun _ _ _ _ => true, plainFails := fun _ _ => true }

/-- A merge backend on which only translated merges raise. -/
def oracleNoTranslated : MergeOracle :=
  { translatedFails := fun _ _ _ _ => true, plainFails := fun _ _ => false }

/-- Sample front template (200 x 300). -/
def pgF : Page := { width := 200, height := 300, content := [.raw 0 0 0] }

/-- Sample back template (200 x 300). -/
def pgB : Page := { width := 200, height := 300, content := [.raw 1 0 0] }

/-- Sample content page (180 x 280). -/
def pgC : Page := { width := 180, height := 280, content := [.raw 2 0 0] }

/-! ### Structural lemmas about the assembly loop -/

theorem assembleLoop_length (o : MergeOracle) (mf mb : Page) (fx fy xp yp : ℚ) :
    ∀ (n : Nat) (ps : List Page),
      (assembleLoop o mf mb fx fy xp yp n ps).length = 2 * ps.length
  | _, [] => rfl
  | n, _ :: ps => by
      simp [assembleLoop, assembleLoop_length o mf mb fx fy xp yp (n + 1) ps]
      ring

theorem assembleLoop_get (o : MergeOracle) (mf mb : Page) (fx fy xp yp : ℚ) :
    ∀ (ps : List Page) (n i : Nat) (hi : i < ps.length),
      (assembleLoop o mf mb fx fy xp yp n ps)[2 * i]? =
        some (composeFront o fx fy mf (ps.get ⟨i, hi⟩)) ∧
      (assembleLoop o mf mb fx fy xp yp n ps)[2 * i + 1]? =
        some (composeBack o mb xp yp (n + i))
  | [], _, i, hi => absurd hi (by simp)
  | p :: ps, n, 0, _ => by simp [assembleLoop]
  | p :: ps, n, i + 1, hi => by
      have hi' : i < ps.length := by simpa using Nat.lt_of_succ_lt_succ hi
      have ih := assembleLoop_get o mf mb fx fy xp yp ps (n + 1) i hi'
      have h2 : 2 * (i + 1) = 2 * i + 1 + 1 := by ring
      have hn : n + 1 + i = n + (i + 1) := by ring
      rw [h2]
      simpa [assembleLoop, hn] using ih

theorem assemble_ok (o : MergeOracle) (mf mb : Page) (rest multi : List Page)
    (fx fy : ℚ) (start_num : Nat) (xp yp : ℚ) :
    assemble o (mf :: mb :: rest) multi fx fy start_num xp yp =
      .ok (assembleLoop o mf mb fx fy xp yp start_num multi) := by
  simp [assemble]

/-! ### The merge ladders -/

theorem composeFrontAt_content (o : MergeOracle) (mf p : Page) (fx fy : ℚ) :
    ∃ s, (composeFrontAt o mf p fx fy).content = mf.content ++ s := by
  unfold composeFrontAt mergeTranslatedPage mergePage
  by_cases h1 : o.translatedFails mf p fx fy <;>
    by_cases h2 : o.plainFails mf p <;>
      simp [h1, h2]

theorem composeFrontAt_dims (o : MergeOracle) (mf p : Page) (fx fy : ℚ) :
    (composeFrontAt o mf p fx fy).width = mf.width ∧
    (composeFrontAt o mf p fx fy).height = mf.height := by
  unfold composeFrontAt mergeTranslatedPage mergePage
  by_cases h1 : o.translatedFails mf p fx fy <;>
    by_cases h2 : o.plainFails mf p <;>
      simp [h1, h2]

theorem composeFront_eq_at (o : MergeOracle) (fx fy : ℚ) (mf p : Page) :
    composeFront o fx fy mf p =
      composeFrontAt o mf p
        (resolvePlacement fx fy mf.width mf.height p.width p.height).1
        (resolvePlacement fx fy mf.width mf.height p.width p.height).2 := rfl

theorem composeFront_content (o : MergeOracle) (fx fy : ℚ) (mf p : Page) :
    ∃ s, (composeFront o fx fy mf p).content = mf.content ++ s := by
  rw [composeFront_eq_at]
  exact composeFrontAt_content o mf p _ _

theorem composeFront_dims (o : MergeOracle) (fx fy : ℚ) (mf p : Page) :
    (composeFront o fx fy mf p).width = mf.width ∧
    (composeFront o fx fy mf p).height = mf.height := by
  rw [composeFront_eq_at]
  exact composeFrontAt_dims o mf p _ _

theorem composeBack_content (o : MergeOracle) (mb : Page) (xp yp : ℚ) (n : Nat) :
    ∃ s, (composeBack o mb xp yp n).content = mb.content ++ s := by
  simp only [composeBack, render]
  by_cases h2 : o.plainFails mb
      { width := mb.width, height := mb.height,
        content := [PageOp.text "Helvetica" 20 xp yp (decimalStr n)] } <;>
    by_cases h1 : o.translatedFails mb
        { width := mb.width, height := mb.height,
          content := [PageOp.text "Helvetica" 20 xp yp (decimalStr n)] } 0 0 <;>
      simp [mergePage, mergeTranslatedPage, translateOp, h1, h2]

theorem composeBack_dims (o : MergeOracle) (mb : Page) (xp yp : ℚ) (n : Nat) :
    (composeBack o mb xp yp n).width = mb.width ∧
    (composeBack o mb xp yp n).height = mb.height := by
  simp only [composeBack, render]
  by_cases h2 : o.plainFails mb
      { width := mb.width, height := mb.height,
        content := [PageOp.text "Helvetica" 20 xp yp (decimalStr n)] } <;>
    by_cases h1 : o.translatedFails mb
        { width := mb.width, height := mb.height,
          content := [PageOp.text "Helvetica" 20 xp yp (decimalStr n)] } 0 0 <;>
      simp [mergePage, mergeTranslatedPage, h1, h2]

theorem composeBack_stamp_mem (o : MergeOracle) (mb : Page) (xp yp : ℚ) (n : Nat) :
    composeBack o mb xp yp n = mb ∨
      PageOp.text "Helvetica" 20 xp yp (decimalStr n) ∈ (composeBack o mb xp yp n).content := by
  simp only [composeBack, render]
  by_cases h2 : o.plainFails mb
      { width := mb.width, height := mb.height,
        content := [PageOp.text "Helvetica" 20 xp yp (decimalStr n)] } <;>
    by_cases h1 : o.translatedFails mb
        { width := mb.width, height := mb.height,
          content := [PageOp.text "Helvetica" 20 xp yp (decimalStr n)] } 0 0 <;>
      simp [mergePage, mergeTranslatedPage, translateOp, h1, h2]

/-! ### Decimal rendering: `str(number)` produces the plain base-10 digits -/

/-- `c` is one of the characters `'0'` .. `'9'`. -/
def isDecDigit (c : Char) : Bool := 48 ≤ c.toNat && c.toNat ≤ 57

/-- Numeric value of a digit character. -/
def charVal (c : Char) : Nat := c.toNat - 48

/-- Read a digit string back as a base-10 number. -/
def decodeDigits (l : List Char) : Nat :=
  l.foldl (fun a c => 10 * a + charVal c) 0

/-- Number of base-10 digits `decDigitsAux` emits for `n`. -/
def digitCount : Nat → Nat
  | 0 => 0
  | (n + 1) => digitCount ((n + 1) / 10) + 1
  termination_by n => n
  decreasing_by simp_wf; exact Nat.div_lt_self (Nat.succ_pos _) (by omega)

theorem isDecDigit_digitChar10 (d : Nat) : isDecDigit (digitChar10 d) = true := by
  unfold digitChar10
  repeat' split
  all_goals decide

theorem charVal_digitChar10 (d : Nat) (hd : d < 10) : charVal (digitChar10 d) = d := by
  interval_cases d <;> decide

theorem digitChar10_ne_zero (d : Nat) (h1 : 1 ≤ d) (h9 : d ≤ 9) : digitChar10 d ≠ '0' := by
  interval_cases d <;> decide

theorem decDigitsAux_append : ∀ (n : Nat) (acc : List Char),
    decDigitsAux n acc = decDigitsAux n [] ++ acc
  | 0, acc => by simp [decDigitsAux_zero]
  | (m + 1), acc => by
      rw [decDigitsAux_succ m acc, decDigitsAux_succ m []]
      rw [decDigitsAux_append ((m + 1) / 10) (digitChar10 ((m + 1) % 10) :: acc),
          decDigitsAux_append ((m + 1) / 10) [digitChar10 ((m + 1) % 10)]]
      simp
  termination_by n _ => n
  decreasing_by all_goals (simp_wf; exact Nat.div_lt_self (Nat.succ_pos _) (by omega))

theorem decDigitsAux_digits : ∀ (n : Nat) (acc : List Char),
    (∀ c ∈ acc, isDecDigit c = true) → ∀ c ∈ decDigitsAux n acc, isDecDigit c = true
  | 0, acc, h => by simpa [decDigitsAux_zero] using h
  | (m + 1), acc, h => by
      rw [decDigitsAux_succ]
      refine decDigitsAux_digits ((m + 1) / 10) _ ?_
      intro c hc
      rcases List.mem_cons.mp hc with rfl | hc
      · exact isDecDigit_digitChar10 _
      · exact h c hc
  termination_by n _ _ => n
  decreasing_by simp_wf; exact Nat.div_lt_self (Nat.succ_pos _) (by omega)

theorem decDigitsAux_head : ∀ (n : Nat), 1 ≤ n →
    ∃ c l, decDigitsAux n [] = c :: l ∧ c ≠ '0'
  | 0, h => absurd h (by omega)
  | (m + 1), _ => by
      rw [decDigitsAux_succ]
      rw [decDigitsAux_append ((m + 1) / 10) [digitChar10 ((m + 1) % 10)]]
      by_cases hk : (m + 1) / 10 = 0
      · have hlt : m + 1 < 10 := by
          rcases Nat.lt_or_ge (m + 1) 10 with h | h
          · exact h
          · exact absurd hk (by
              have : 1 ≤ (m + 1) / 10 := Nat.one_le_div_iff (by omega) |>.mpr h
              omega)
        have hmod : (m + 1) % 10 = m + 1 := Nat.mod_eq_of_lt hlt
        refine ⟨digitChar10 ((m + 1) % 10), [], ?_, ?_⟩
        · rw [hk]; simp [decDigitsAux_zero]
        · rw [hmod]; exact digitChar10_ne_zero (m + 1) (by omega) (by omega)
      · obtain ⟨c, l, hl, hc⟩ := decDigitsAux_head ((m + 1) / 10) (by omega)
        exact ⟨c, l ++ [digitChar10 ((m + 1) % 10)], by rw [hl]; simp, hc⟩
  termination_by n _ => n
  decreasing_by simp_wf; exact Nat.div_lt_self (Nat.succ_pos _) (by omega)

theorem foldl_decDigitsAux : ∀ (n : Nat) (acc : List Char) (a : Nat),
    List.foldl (fun a c => 10 * a + charVal c) a (decDigitsAux n acc) =
      List.foldl (fun a c => 10 * a + charVal c) (a * 10 ^ digitCount n + n) acc
  | 0, acc, a => by simp [decDigitsAux_zero, digitCount]
  | (m + 1), acc, a => by
      rw [decDigitsAux_succ]
      rw [foldl_decDigitsAux ((m + 1) / 10) (digitChar10 ((m + 1) % 10) :: acc) a]
      simp only [List.foldl_cons]
      rw [charVal_digitChar10 ((m + 1) % 10) (Nat.mod_lt _ (by omega))]
      have hq : 10 * ((m + 1) / 10) + (m + 1) % 10 = m + 1 := Nat.div_add_mod (m + 1) 10
      have harith :
          10 * (a * 10 ^ digitCount ((m + 1) / 10) + (m + 1) / 10) + (m + 1) % 10 =
            a * (10 ^ digitCount ((m + 1) / 10) * 10) +
              (10 * ((m + 1) / 10) + (m + 1) % 10) := by ring
      rw [harith, hq]
      simp only [digitCount, pow_succ]
  termination_by n _ _ => n
  decreasing_by simp_wf; exact Nat.div_lt_self (Nat.succ_pos _) (by omega)

/-- For a positive number, `str(number)` is nonempty, starts with a
nonzero digit, consists only of decimal digit characters, and reads
back as exactly that number in base 10. -/
theorem decimalStr_spec (n : Nat) (h : 1 ≤ n) :
    (∃ c l, (decimalStr n).data = c :: l ∧ c ≠ '0') ∧
    (∀ c ∈ (decimalStr n).data, isDecDigit c = true) ∧
    decodeDigits (decimalStr n).data = n := by
  have hne : ¬ n = 0 := by omega
  have hdata : (decimalStr n).data = decDigitsAux n [] := by
    simp [decimalStr, hne]
  refine ⟨?_, ?_, ?_⟩
  · rw [hdata]; exact decDigitsAux_head n h
  · rw [hdata]; exact decDigitsAux_digits n [] (by simp)
  · rw [hdata]
    unfold decodeDigits
    rw [foldl_decDigitsAux n [] 0]
    simp

/-! ### Claim theorems -/

/-- C1: for every master with at least 2 pages and every content
document with N pages, the run succeeds and the output has exactly
2N pages, with page 2i the composed front for content page i and page
2i+1 its paired numbered back; in particular N = 0 yields an empty
output with no error. -/
theorem claim_output_shape (o : MergeOracle) (mf mb : Page) (rest multi : List Page)
    (fx fy : ℚ) (start_num : Nat) (xp yp : ℚ) :
    ∃ out, assemble o (mf :: mb :: rest) multi fx fy start_num xp yp = .ok out ∧
      out.length = 2 * multi.length ∧
      ∀ i : Fin multi.length,
        out[2 * i.val]? = some (composeFront o fx fy mf (multi.get i)) ∧
        out[2 * i.val + 1]? = some (composeBack o mb xp yp (start_num + i.val)) := by
  refine ⟨_, assemble_ok o mf mb rest multi fx fy start_num xp yp,
    assembleLoop_length o mf mb fx fy xp yp start_num multi, ?_⟩
  intro i
  exact assembleLoop_get o mf mb fx fy xp yp multi start_num i.val i.isLt

/-- C2: with starting number at least 1, back page i is composed with
running number startNumber + i (strictly increasing by 1, no gaps), and
that number's stamp text is its plain base-10 decimal string: nonempty,
no leading zero, decimal digit characters only, decoding back to the
number itself. -/
theorem claim_numbering (o : MergeOracle) (mf mb : Page) (rest multi : List Page)
    (fx fy : ℚ) (start_num : Nat) (xp yp : ℚ) (hstart : 1 ≤ start_num) :
    ∃ out, assemble o (mf :: mb :: rest) multi fx fy start_num xp yp = .ok out ∧
      ∀ i : Fin multi.length,
        out[2 * i.val + 1]? = some (composeBack o mb xp yp (start_num + i.val)) ∧
        (composeBack o mb xp yp (start_num + i.val) = mb ∨
          PageOp.text "Helvetica" 20 xp yp (decimalStr (start_num + i.val)) ∈
            (composeBack o mb xp yp (start_num + i.val)).content) ∧
        (∃ c l, (decimalStr (start_num + i.val)).data = c :: l ∧ c ≠ '0') ∧
        (∀ c ∈ (decimalStr (start_num + i.val)).data, isDecDigit c = true) ∧
        decodeDigits (decimalStr (start_num + i.val)).data = start_num + i.val := by
  refine ⟨_, assemble_ok o mf mb rest multi fx fy start_num xp yp, ?_⟩
  intro i
  have hdec := decimalStr_spec (start_num + i.val) (by omega)
  exact ⟨(assembleLoop_get o mf mb fx fy xp yp multi start_num i.val i.isLt).2,
    composeBack_stamp_mem o mb xp yp (start_num + i.val), hdec.1, hdec.2.1, hdec.2.2⟩

/-- C2 witness: a concrete run with startNumber 5 and one content page. -/
theorem claim_numbering_witness :
    1 ≤ 5 ∧
    (∃ out, assemble oracleOk (pgF :: pgB :: []) [pgC] (-1) (-1) 5 50 50 = .ok out ∧
      ∀ i : Fin ([pgC] : List Page).length,
        out[2 * i.val + 1]? = some (composeBack oracleOk pgB 50 50 (5 + i.val)) ∧
        (composeBack oracleOk pgB 50 50 (5 + i.val) = pgB ∨
          PageOp.text "Helvetica" 20 50 50 (decimalStr (5 + i.val)) ∈
            (composeBack oracleOk pgB 50 50 (5 + i.val)).content) ∧
        (∃ c l, (decimalStr (5 + i.val)).data = c :: l ∧ c ≠ '0') ∧
        (∀ c ∈ (decimalStr (5 + i.val)).data, isDecDigit c = true) ∧
        decodeDigits (decimalStr (5 + i.val)).data = 5 + i.val) :=
  ⟨by omega, claim_numbering oracleOk pgF pgB [] [pgC] (-1) (-1) 5 50 50 (by omega)⟩

/-- C3: with both front coordinates equal to the auto-sentinel -1, the
resolved placement is ((mw - pw) / 2, (mh - ph) / 2), and each front
composition uses the placement computed from that content page's own
dimensions. -/
theorem claim_auto_center :
    (∀ mw mh pw ph : ℚ,
      resolvePlacement (-1) (-1) mw mh pw ph = ((mw - pw) / 2, (mh - ph) / 2)) ∧
    (∀ (o : MergeOracle) (mf p : Page),
      composeFront o (-1) (-1) mf p =
        composeFrontAt o mf p ((mf.width - p.width) / 2) ((mf.height - p.height) / 2)) := by
  have hres : ∀ mw mh pw ph : ℚ,
      resolvePlacement (-1) (-1) mw mh pw ph = ((mw - pw) / 2, (mh - ph) / 2) := by
    intro mw mh pw ph
    simp only [resolvePlacement]
    norm_num
  refine ⟨hres, ?_⟩
  intro o mf p
  rw [composeFront_eq_at, hres]

/-- C4 counterexample: frontX = frontY = -1/2 is not the sentinel -1,
yet the resolved placement is the auto-center (50, 100), not
(-1/2, -1/2): the code treats every negative coordinate as auto. -/
theorem claim_explicit_placement_cex :
    resolvePlacement (-(1 / 2)) (-(1 / 2)) 200 300 100 100 ≠ (-(1 / 2), -(1 / 2)) := by
  simp only [resolvePlacement]
  norm_num

/-- C4 (amended): for every nonnegative frontX and frontY the resolved
placement is exactly (frontX, frontY), independent of the content and
master dimensions; any negative coordinate (not only -1) selects
auto-centering for its axis. -/
theorem claim_explicit_placement (fx fy mw mh pw ph : ℚ) (hx : 0 ≤ fx) (hy : 0 ≤ fy) :
    resolvePlacement fx fy mw mh pw ph = (fx, fy) := by
  simp only [resolvePlacement, ge_iff_le, if_pos hx, if_pos hy]

/-- C4 witness: explicit placement (3, 7) on a 200 x 300 master with a
100 x 100 content page. -/
theorem claim_explicit_placement_witness :
    0 ≤ (3 : ℚ) ∧ 0 ≤ (7 : ℚ) ∧ resolvePlacement 3 7 200 300 100 100 = (3, 7) :=
  ⟨by norm_num, by norm_num,
    claim_explicit_placement 3 7 200 300 100 100 (by norm_num) (by norm_num)⟩

/-- C5: a master document with fewer than 2 pages makes the run fail
with the invalid-master error; no output document is produced. -/
theorem claim_invalid_master (o : MergeOracle) (master multi : List Page)
    (fx fy : ℚ) (start_num : Nat) (xp yp : ℚ) (h : master.length < 2) :
    assemble o master multi fx fy start_num xp yp = .error .invalidMaster := by
  simp [assemble, if_pos h]

/-- C5 witness: a one-page master is rejected. -/
theorem claim_invalid_master_witness :
    ([pgF] : List Page).length < 2 ∧
    assemble oracleOk [pgF] [pgC] (-1) (-1) 1 50 50 = .error .invalidMaster :=
  ⟨by simp, claim_invalid_master oracleOk [pgF] [pgC] (-1) (-1) 1 50 50 (by simp)⟩

/-- C6: the merge ladders. For the front: a successful translated merge
is used as-is; if it raises, a plain (untranslated, dx = dy = 0) merge
is used; if both raise, the bare front template is the page. For the
back: if both merge attempts raise, the bare back template is the page.
In every case the run still succeeds with exactly 2N output pages, for
every failure oracle: per-page merge failures never become run-level
failures. -/
theorem claim_merge_fallback :
    (∀ (o : MergeOracle) (mf p : Page) (fx fy : ℚ) (q : Page),
        mergeTranslatedPage o mf p fx fy = some q → composeFrontAt o mf p fx fy = q) ∧
    (∀ (o : MergeOracle) (mf p : Page) (fx fy : ℚ) (q : Page),
        mergeTranslatedPage o mf p fx fy = none → mergePage o mf p = some q →
          composeFrontAt o mf p fx fy = q) ∧
    (∀ (o : MergeOracle) (mf p : Page) (fx fy : ℚ),
        mergeTranslatedPage o mf p fx fy = none → mergePage o mf p = none →
          composeFrontAt o mf p fx fy = mf) ∧
    (∀ (o : MergeOracle) (mb : Page) (xp yp : ℚ) (n : Nat),
        mergePage o mb (render n mb.width mb.height "Helvetica" 20 xp yp) = none →
        mergeTranslatedPage o mb (render n mb.width mb.height "Helvetica" 20 xp yp) 0 0 = none →
          composeBack o mb xp yp n = mb) ∧
    (∀ (o : MergeOracle) (mf mb : Page) (rest multi : List Page) (fx fy : ℚ)
        (start_num : Nat) (xp yp : ℚ),
        ∃ out, assemble o (mf :: mb :: rest) multi fx fy start_num xp yp = .ok out ∧
          out.length = 2 * multi.length) := by
  refine ⟨?_, ?_, ?_, ?_, ?_⟩
  · intro o mf p fx fy q h
    unfold composeFrontAt
    rw [h]
  · intro o mf p fx fy q h1 h2
    unfold composeFrontAt
    rw [h1, h2]
  · intro o mf p fx fy h1 h2
    unfold composeFrontAt
    rw [h1, h2]
  · intro o mb xp yp n h1 h2
    simp only [composeBack]
    rw [h1, h2]
  · intro o mf mb rest multi fx fy start_num xp yp
    exact ⟨_, assemble_ok o mf mb rest multi fx fy start_num xp yp,
      assembleLoop_length o mf mb fx fy xp yp start_num multi⟩

/-- C6 witness: on a backend where every merge raises, the bare
templates are emitted and the run still produces 2 pages for 1 content
page. -/
theorem claim_merge_fallback_witness :
    (mergeTranslatedPage oracleFail pgF pgC 3 4 = none ∧
      mergePage oracleFail pgF pgC = none ∧
      composeFrontAt oracleFail pgF pgC 3 4 = pgF) ∧
    (∃ out, assemble oracleFail (pgF :: pgB :: []) [pgC] (-1) (-1) 1 50 50 = .ok out ∧
      out.length = 2 * ([pgC] : List Page).length) :=
  ⟨⟨rfl, rfl, claim_merge_fallback.2.2.1 oracleFail pgF pgC 3 4 rfl rfl⟩,
    claim_merge_fallback.2.2.2.2 oracleFail pgF pgB [] [pgC] (-1) (-1) 1 50 50⟩

/-- C7: composing never mutates a template: in every iteration both
output pages start from the pristine template content (the template's
full content is a prefix of the composed page's content), for every
content page index, so the same templates are reused across all N
iterations unchanged. -/
theorem claim_template_pristine (o : MergeOracle) (mf mb : Page) (rest multi : List Page)
    (fx fy : ℚ) (start_num : Nat) (xp yp : ℚ) :
    ∃ out, assemble o (mf :: mb :: rest) multi fx fy start_num xp yp = .ok out ∧
      ∀ i : Fin multi.length,
        (∃ q s, out[2 * i.val]? = some q ∧ q.content = mf.content ++ s) ∧
        (∃ q s, out[2 * i.val + 1]? = some q ∧ q.content = mb.content ++ s) := by
  refine ⟨_, assemble_ok o mf mb rest multi fx fy start_num xp yp, ?_⟩
  intro i
  obtain ⟨hf, hb⟩ := assembleLoop_get o mf mb fx fy xp yp multi start_num i.val i.isLt
  obtain ⟨s1, hs1⟩ := composeFront_content o fx fy mf (multi.get i)
  obtain ⟨s2, hs2⟩ := composeBack_content o mb xp yp (start_num + i.val)
  exact ⟨⟨_, s1, hf, hs1⟩, ⟨_, s2, hb, hs2⟩⟩

/-- C8: the number stamp is a page sized exactly to the back template's
width and height; the back composite is exactly the ladder that merges
the stamp untranslated or at translation (0, 0), never at any other
offset; and numberX/numberY only determine where the text is drawn
inside the stamp (the text operation lands at (numberX, numberY)
whenever a merge succeeded). -/
theorem claim_back_zero_offset (o : MergeOracle) (mb : Page) (xp yp : ℚ) (n : Nat) :
    (render n mb.width mb.height "Helvetica" 20 xp yp).width = mb.width ∧
    (render n mb.width mb.height "Helvetica" 20 xp yp).height = mb.height ∧
    composeBack o mb xp yp n =
      (match mergePage o mb (render n mb.width mb.height "Helvetica" 20 xp yp) with
       | some merged => merged
       | none =>
         match mergeTranslatedPage o mb (render n mb.width mb.height "Helvetica" 20 xp yp) 0 0 with
         | some merged => merged
         | none => mb) ∧
    (composeBack o mb xp yp n = mb ∨
      PageOp.text "Helvetica" 20 xp yp (decimalStr n) ∈ (composeBack o mb xp yp n).content) :=
  ⟨rfl, rfl, rfl, composeBack_stamp_mem o mb xp yp n⟩

/-- C9: the Canvas Renderer is deterministic: identical arguments
produce identical stamp pages. -/
theorem claim_render_deterministic (n n' : Nat) (w w' h h' : ℚ) (f f' : String)
    (sz sz' x x' y y' : ℚ) (hn : n = n') (hw : w = w') (hh : h = h') (hf : f = f')
    (hsz : sz = sz') (hx : x = x') (hy : y = y') :
    render n w h f sz x y = render n' w' h' f' sz' x' y' := by
  subst hn hw hh hf hsz hx hy
  rfl

/-- C9 witness: two renders of number 5 on a 200 x 300 canvas agree. -/
theorem claim_render_deterministic_witness :
    (5 : Nat) = 5 ∧ (200 : ℚ) = 200 ∧
    render 5 200 300 "Helvetica" 20 50 50 = render 5 200 300 "Helvetica" 20 50 50 :=
  ⟨rfl, rfl, claim_render_deterministic 5 5 200 200 300 300 "Helvetica" "Helvetica"
    20 20 50 50 50 50 rfl rfl rfl rfl rfl rfl rfl⟩

/-- C10: every output front page has the front template's mediabox
width and height and every output back page has the back template's,
whatever the content pages' own dimensions; and the stamp on a back
page (when a merge succeeded) is drawn in Helvetica at size 20. -/
theorem claim_output_page_dims (o : MergeOracle) (mf mb : Page) (rest multi : List Page)
    (fx fy : ℚ) (start_num : Nat) (xp yp : ℚ) :
    ∃ out, assemble o (mf :: mb :: rest) multi fx fy start_num xp yp = .ok out ∧
      ∀ i : Fin multi.length,
        (∃ q, out[2 * i.val]? = some q ∧ q.width = mf.width ∧ q.height = mf.height) ∧
        (∃ q, out[2 * i.val + 1]? = some q ∧ q.width = mb.width ∧ q.height = mb.height ∧
          (q = mb ∨
            PageOp.text "Helvetica" 20 xp yp (decimalStr (start_num + i.val)) ∈ q.content)) := by
  refine ⟨_, assemble_ok o mf mb rest multi fx fy start_num xp yp, ?_⟩
  intro i
  obtain ⟨hf, hb⟩ := assembleLoop_get o mf mb fx fy xp yp multi start_num i.val i.isLt
  obtain ⟨hw1, hh1⟩ := composeFront_dims o fx fy mf (multi.get i)
  obtain ⟨hw2, hh2⟩ := composeBack_dims o mb xp yp (start_num + i.val)
  exact ⟨⟨_, hf, hw1, hh1⟩,
    ⟨_, hb, hw2, hh2, composeBack_stamp_mem o mb xp yp (start_num + i.val)⟩⟩

end VdpPdf
